import Mathlib

/-!
Shallow embedding of the scheduling engine of `solver.py` / `app.py`
(a multi-resource UAT scheduling tool built on a CP-SAT model).

`find_optimal_schedule(scenarios, personnel, start_date_str)` builds a
constraint model (one shared start/end variable per scenario, one person
variable per required-workstream occurrence, indicator-gated optional
intervals with a per-person NoOverlap constraint), minimizes the maximum
scenario end, and extracts a per-scenario-name schedule plus
`objective / 24.0`.

The solver itself (CP-SAT) is external; we model its contract: on
OPTIMAL/FEASIBLE it returns values satisfying every posted constraint
(optimal ones when the search is exhaustive), on INFEASIBLE the function
returns an empty schedule and a null total.  Hence the embedding consists
of: the variable/constraint system as a decidable `feasible` predicate on
assignments, the `objective`, optimality as a predicate, and the result
extraction as a function of a solved assignment.  Hour offsets are natural
numbers; the Python code turns the solved offsets into timestamps by
adding them to the reference date, a presentation step that is injective
in the offset, so records here keep the raw offsets.
-/

/-- A person record: `{'name': ..., 'workstream': ...}`. -/
structure Person where
  name : String
  workstream : String
  deriving DecidableEq, Repr

instance : Inhabited Person := ⟨⟨"", ""⟩⟩

/-- A scenario record: `{'name': ..., 'duration_hours': ..., 'required_workstreams': [...]}`.
`duration_hours` is passed through `int(...)` in the source; the spec
restricts it to positive integers, and nonnegative hour counts suffice for
every claim, so it is a `Nat` here. -/
structure Scenario where
  name : String
  duration_hours : Nat
  required_workstreams : List String
  deriving DecidableEq, Repr

instance : Inhabited Scenario := ⟨⟨"", 0, []⟩⟩

/-- One entry of `all_subtasks`: a (scenario, required-workstream occurrence)
pair, carrying the data the source stores with it (the shared start/end
variables are represented by `scenarioIdx`, since all sub-tasks of a
scenario share them). -/
structure Subtask where
  scenarioIdx : Nat
  scenarioName : String
  workstream : String
  duration : Nat
  deriving DecidableEq, Repr

instance : Inhabited Subtask := ⟨⟨0, "", "", 0⟩⟩

/-- `horizon = 60 * 24`: the 60-day planning ceiling, in hours. -/
def horizon : Nat := 60 * 24

/-- The flattening loop of section 1 of `find_optimal_schedule`, carrying the
running `scenario_idx`: each scenario contributes one sub-task per entry of
its `required_workstreams`. -/
def mkSubtasksAux : Nat → List Scenario → List Subtask
  | _, [] => []
  | i, sc :: rest =>
      sc.required_workstreams.map (fun ws => ⟨i, sc.name, ws, sc.duration_hours⟩)
        ++ mkSubtasksAux (i + 1) rest

/-- `all_subtasks`, in construction order. -/
def mkSubtasks (scenarios : List Scenario) : List Subtask :=
  mkSubtasksAux 0 scenarios

/-- `people_map = {p['name']: i for i, p in enumerate(personnel)}`: a name
maps to the index of its last occurrence (later dict insertions overwrite
earlier ones).  Walks the list keeping the current index and the best value
so far; a name that never occurs yields the initial accumulator, which the
source never queries. -/
def peopleMapAux (nm : String) : List Person → Nat → Nat → Nat
  | [], _, acc => acc
  | p :: rest, i, acc => peopleMapAux nm rest (i + 1) (if p.name = nm then i else acc)

/-- Look up `people_map[nm]`. -/
def peopleMap (personnel : List Person) (nm : String) : Nat :=
  peopleMapAux nm personnel 0 0

/-- `valid_people_indices` for one required workstream:
`[people_map[p['name']] for p in personnel if p['workstream'] == ws]`. -/
def validPeopleIndices (personnel : List Person) (ws : String) : List Nat :=
  (personnel.filter (fun p => p.workstream = ws)).map (fun p => peopleMap personnel p.name)

/-- A solved assignment: a start hour for every scenario index (the shared
`start_var`; `end_var` is determined by `end = start + duration`) and a
person index for every sub-task position in `all_subtasks`. -/
structure Solution where
  starts : Nat → Nat
  persons : Nat → Nat

/-- Solved start of a sub-task: the shared start of its scenario. -/
def startOf (sol : Solution) (st : Subtask) : Nat :=
  sol.starts st.scenarioIdx

/-- Solved end of a sub-task: `end = start + duration`. -/
def endOf (sol : Solution) (st : Subtask) : Nat :=
  startOf sol st + st.duration

/-- `all_subtasks[k]` (out-of-range reads, which the source never performs,
default to the trivial sub-task). -/
def subtaskAt (scenarios : List Scenario) (k : Nat) : Subtask :=
  (mkSubtasks scenarios).getD k default

/-- The posted constraint system, as satisfied by a solved assignment:
* start/end domains: every scenario's end (hence start) lies within the
  horizon (`NewIntVar(0, horizon, ...)` plus `end == start + duration`);
* person domains: every sub-task's person index is below `len(personnel)`;
* `AddAllowedAssignments`: posted only when `valid_people_indices` is
  nonempty — when the list is empty the source merely prints an error and
  posts nothing;
* per-person `AddNoOverlap` over the indicator-gated optional intervals:
  two sub-tasks whose person variables take the same value may not overlap
  (CP-SAT ignores zero-size intervals in NoOverlap). -/
def feasible (scenarios : List Scenario) (personnel : List Person) (sol : Solution) : Prop :=
  (∀ i < scenarios.length,
      sol.starts i + (scenarios.getD i default).duration_hours ≤ horizon) ∧
  (∀ k < (mkSubtasks scenarios).length,
      sol.persons k < personnel.length) ∧
  (∀ k < (mkSubtasks scenarios).length,
      validPeopleIndices personnel (subtaskAt scenarios k).workstream ≠ [] →
      sol.persons k ∈ validPeopleIndices personnel (subtaskAt scenarios k).workstream) ∧
  (∀ k < (mkSubtasks scenarios).length, ∀ l < (mkSubtasks scenarios).length,
      (k ≠ l ∧ sol.persons k = sol.persons l ∧
       (subtaskAt scenarios k).duration ≠ 0 ∧ (subtaskAt scenarios l).duration ≠ 0) →
      (endOf sol (subtaskAt scenarios k) ≤ startOf sol (subtaskAt scenarios l) ∨
       endOf sol (subtaskAt scenarios l) ≤ startOf sol (subtaskAt scenarios k)))

instance (scenarios : List Scenario) (personnel : List Person) (sol : Solution) :
    Decidable (feasible scenarios personnel sol) := by
  unfold feasible; infer_instance

/-- `max_end_time`: the value of the minimized objective, the maximum end
over the sub-tasks' (shared, deduplicated) end variables.  Deduplication
does not change a maximum, so it is a fold over all sub-task ends. -/
def objective (scenarios : List Scenario) (sol : Solution) : Nat :=
  ((mkSubtasks scenarios).map (endOf sol)).foldr max 0

/-- `solver.ObjectiveValue() / 24.0`, the returned scalar. -/
def totalDays (scenarios : List Scenario) (sol : Solution) : ℚ :=
  (objective scenarios sol : ℚ) / 24

/-- The solved assignment is feasible and attains the minimum objective:
what CP-SAT certifies when it answers OPTIMAL. -/
def isOptimal (scenarios : List Scenario) (personnel : List Person) (sol : Solution) : Prop :=
  feasible scenarios personnel sol ∧
    ∀ sol', feasible scenarios personnel sol' → objective scenarios sol ≤ objective scenarios sol'

/-- One row of the output: the dict the extractor builds per scenario name.
`startHour`/`endHour` are the solved offsets the source feeds into
`start_date + timedelta(hours=...)`; `assignedPersons`/`workstreams` are
the per-sub-task append lists (the display step sorts and comma-joins
them afterwards). -/
structure ScheduleRecord where
  scenario : String
  durationHours : Nat
  startHour : Nat
  endHour : Nat
  assignedPersons : List String
  workstreams : List String
  deriving DecidableEq, Repr

/-- `personnel[person_index]['name']`. -/
def personNameAt (personnel : List Person) (idx : Nat) : String :=
  (personnel.getD idx default).name

/-- `personnel[person_index]['workstream']`. -/
def personWsAt (personnel : List Person) (idx : Nat) : String :=
  (personnel.getD idx default).workstream

/-- One step of the extraction loop: if `scenario_results` already holds the
sub-task's scenario name, append the person/workstream to that record,
otherwise insert a fresh record (Python dicts preserve insertion order, so
the dict is an insertion-ordered list of records). -/
def addSubtaskResult (personnel : List Person) (sol : Solution) (k : Nat) (st : Subtask)
    (acc : List ScheduleRecord) : List ScheduleRecord :=
  if acc.any (fun r => r.scenario = st.scenarioName) then
    acc.map (fun r =>
      if r.scenario = st.scenarioName then
        { r with
          assignedPersons := r.assignedPersons ++ [personNameAt personnel (sol.persons k)],
          workstreams := r.workstreams ++ [personWsAt personnel (sol.persons k)] }
      else r)
  else
    acc ++ [{ scenario := st.scenarioName
              durationHours := st.duration
              startHour := startOf sol st
              endHour := endOf sol st
              assignedPersons := [personNameAt personnel (sol.persons k)]
              workstreams := [personWsAt personnel (sol.persons k)] }]

/-- The extraction loop over `all_subtasks` (with each sub-task's position,
which indexes its person variable), threading `scenario_results`. -/
def extractAux (personnel : List Person) (sol : Solution) :
    List (Nat × Subtask) → List ScheduleRecord → List ScheduleRecord
  | [], acc => acc
  | (k, st) :: rest, acc =>
      extractAux personnel sol rest (addSubtaskResult personnel sol k st acc)

/-- `scenario_results.values()` in insertion order: the schedule the
function returns (before the display-only sort-and-join of the two name
lists). -/
def extractSchedule (scenarios : List Scenario) (personnel : List Person) (sol : Solution) :
    List ScheduleRecord :=
  extractAux personnel sol (mkSubtasks scenarios).enum []

/-- The display formatting applied to each record just before returning:
sort and comma-join the two lists. -/
def formatRecord (r : ScheduleRecord) : String × String :=
  (String.intercalate ", " (r.assignedPersons.mergeSort (fun a b => a ≤ b)),
   String.intercalate ", " (r.workstreams.mergeSort (fun a b => a ≤ b)))

/-- The outcome of pressing "Find Optimal Schedule" in `app.py`: either the
empty-input complaint issued before anything else, or an invocation of
`find_optimal_schedule` on the assembled data. -/
inductive AppOutcome where
  | emptyInputError : AppOutcome
  | invokeSolver : List Scenario → List Person → AppOutcome
  deriving DecidableEq

/-- The button handler's guard (`app.py` lines 88-97): if either table is
empty it shows the error and returns; only otherwise does it call
`find_optimal_schedule` (where model construction begins). -/
def appRun (personnel : List Person) (scenarios : List Scenario) : AppOutcome :=
  if personnel = [] ∨ scenarios = [] then AppOutcome.emptyInputError
  else AppOutcome.invokeSolver scenarios personnel

/-- Modelled from the spec: "the maximum `end` over all scenarios" — the
quantity the spec compares `total_days * 24` against.  Every scenario's
shared end variable is `start + duration`, whether or not the scenario
contributed any sub-task. -/
def maxScenarioEnd (scenarios : List Scenario) (sol : Solution) : Nat :=
  ((List.range scenarios.length).map
      (fun i => sol.starts i + (scenarios.getD i default).duration_hours)).foldr max 0

/-- The same maximum restricted to scenarios whose requirements list is
nonempty (exactly the scenarios that contribute sub-tasks, hence end
variables to the objective). -/
def maxStaffedScenarioEnd (scenarios : List Scenario) (sol : Solution) : Nat :=
  (((List.range scenarios.length).filter
        (fun i => (scenarios.getD i default).required_workstreams ≠ [])).map
      (fun i => sol.starts i + (scenarios.getD i default).duration_hours)).foldr max 0

/-- Replace one scenario's solved start value, leaving the rest of the
assignment unchanged. -/
def updateStart (sol : Solution) (i : Nat) (v : Nat) : Solution :=
  ⟨fun j => if j = i then v else sol.starts j, sol.persons⟩

/-- First-occurrence deduplication with an explicit seen list: the key
order of a Python dict built by repeated insertion. -/
def firstDedupAux (seen : List String) : List String → List String
  | [] => []
  | n :: ns => if n ∈ seen then firstDedupAux seen ns else n :: firstDedupAux (n :: seen) ns

/-- Insertion-order list of distinct entries, keeping first occurrences. -/
def firstDedup (l : List String) : List String :=
  firstDedupAux [] l

/-- Unstaffable-workstream instance: IT is required, only Finance staff
exist. -/
def personnelC1 : List Person := [⟨"Alice", "Finance"⟩]

/-- A single scenario whose one required workstream has no qualified
person. -/
def scenariosC1 : List Scenario := [⟨"Security Review", 6, ["IT"]⟩]

/-- An assignment for the unstaffable instance: start at hour 0, person
index 0 for the lone sub-task. -/
def solC1 : Solution := ⟨fun _ => 0, fun _ => 0⟩

/-- A second unstaffable instance (Logistics required, only Finance staff). -/
def personnelC2 : List Person := [⟨"Dana", "Finance"⟩]

/-- Scenario requiring Logistics against `personnelC2`. -/
def scenariosC2 : List Scenario := [⟨"Network Upgrade", 4, ["Logistics"]⟩]

/-- Assignment for the `scenariosC2` instance. -/
def solC2 : Solution := ⟨fun _ => 0, fun _ => 0⟩

/-- The calibration personnel from the app's default data. -/
def calPersonnel : List Person :=
  [⟨"Alice", "Finance"⟩, ⟨"Bob", "Logistics"⟩, ⟨"Charlie", "IT"⟩]

/-- The calibration scenarios from the app's default data. -/
def calScenarios : List Scenario :=
  [⟨"P2P End-to-End", 12, ["Finance", "Logistics", "IT"]⟩,
   ⟨"Invoice Posting", 6, ["Finance"]⟩]

/-- The back-to-back optimal assignment for the calibration instance:
P2P End-to-End at hours 0-12 (Alice, Bob, Charlie), Invoice Posting at
hours 12-18 (Alice). -/
def calSol : Solution :=
  ⟨fun j => if j = 0 then 0 else 12,
   fun k => if k = 1 then 1 else if k = 2 then 2 else 0⟩

/-- Instance with a requirement-free scenario of large duration next to a
short staffed one. -/
def personnelC5 : List Person := [⟨"Erin", "Finance"⟩]

/-- `Ledger Check` needs Finance for 1 hour; `Dormant Clause` requires
nothing and lasts 100 hours. -/
def scenariosC5 : List Scenario :=
  [⟨"Ledger Check", 1, ["Finance"]⟩, ⟨"Dormant Clause", 100, []⟩]

/-- Both scenarios start at hour 0: the staffed one ends at 1, the
requirement-free one at 100. -/
def solC5 : Solution := ⟨fun _ => 0, fun _ => 0⟩

/-- Two Finance people for a duplicated-workstream scenario. -/
def personnelC8 : List Person := [⟨"Pat", "Finance"⟩, ⟨"Quinn", "Finance"⟩]

/-- One scenario listing Finance twice. -/
def scenariosC8 : List Scenario := [⟨"Dual Sign-off", 2, ["Finance", "Finance"]⟩]

/-- Assignment staffing the two Finance occurrences with persons 0 and 1. -/
def solC8 : Solution := ⟨fun _ => 0, fun k => k⟩

/-- Personnel for the requirement-free-scenario witness. -/
def personnelC9 : List Person := [⟨"Rae", "Finance"⟩]

/-- A staffed scenario next to a scenario with an empty requirements list
(the malformed-input fallback of the presentation layer). -/
def scenariosC9 : List Scenario :=
  [⟨"Posting", 3, ["Finance"]⟩, ⟨"Placeholder", 5, []⟩]

/-- Assignment for the `scenariosC9` instance. -/
def solC9 : Solution := ⟨fun _ => 0, fun _ => 0⟩

/-- Personnel for the duplicate-scenario-name instance. -/
def personnelC10 : List Person := [⟨"Sam", "Finance"⟩, ⟨"Tia", "IT"⟩]

/-- Two scenarios sharing the name "Regression". -/
def scenariosC10 : List Scenario :=
  [⟨"Regression", 2, ["Finance"]⟩, ⟨"Regression", 4, ["IT"]⟩]

/-- Assignment for the duplicate-name instance: the Finance sub-task runs
at 0-2 on Sam, the IT one at 2-6 on Tia. -/
def solC10 : Solution := ⟨fun j => if j = 0 then 0 else 2, fun k => k⟩

/-! ### General lemmas about the embedding -/

theorem le_foldr_max {l : List Nat} {x : Nat} (hx : x ∈ l) : x ≤ l.foldr max 0 := by
  induction l with
  | nil => cases hx
  | cons a t ih =>
    rcases List.mem_cons.mp hx with h | h
    · exact h ▸ le_max_left _ _
    · exact le_trans (ih h) (le_max_right _ _)

theorem foldr_max_le {l : List Nat} {b : Nat} (h : ∀ x ∈ l, x ≤ b) : l.foldr max 0 ≤ b := by
  induction l with
  | nil => exact Nat.zero_le b
  | cons a t ih =>
    exact max_le (h a (List.mem_cons_self a t)) (ih fun x hx => h x (List.mem_cons_of_mem a hx))

/-- Membership in the flattened sub-task list: a sub-task of `mkSubtasksAux n scens`
is exactly a (scenario, workstream occurrence) pair of `scens`, with its
index offset by `n`. -/
theorem mem_mkSubtasksAux {st : Subtask} {n : Nat} {scens : List Scenario} :
    st ∈ mkSubtasksAux n scens ↔
      ∃ j, j < scens.length ∧ st.scenarioIdx = n + j ∧
        st.scenarioName = (scens.getD j default).name ∧
        st.workstream ∈ (scens.getD j default).required_workstreams ∧
        st.duration = (scens.getD j default).duration_hours := by
  induction scens generalizing n with
  | nil => simp [mkSubtasksAux]
  | cons sc rest ih =>
    simp only [mkSubtasksAux, List.mem_append, List.mem_map, ih]
    constructor
    · rintro (⟨ws, hws, rfl⟩ | ⟨j, hj, hidx, hname, hws, hdur⟩)
      · exact ⟨0, by simp, by simp, by simp [List.getD], by simpa [List.getD] using hws,
          by simp [List.getD]⟩
      · exact ⟨j + 1, by simpa using hj, by omega, by simpa [List.getD] using hname,
          by simpa [List.getD] using hws, by simpa [List.getD] using hdur⟩
    · rintro ⟨j, hj, hidx, hname, hws, hdur⟩
      match j with
      | 0 =>
        left
        refine ⟨st.workstream, by simpa [List.getD] using hws, ?_⟩
        cases st with
        | mk i nm ws d =>
          simp only [List.getD_cons_zero] at hname hdur
          simp_all
      | j + 1 =>
        right
        exact ⟨j, by simpa using hj, by omega, by simpa [List.getD] using hname,
          by simpa [List.getD] using hws, by simpa [List.getD] using hdur⟩

/-- Every sub-task points at a real scenario and carries that scenario's
name, one of its required workstreams, and its duration. -/
theorem mem_mkSubtasks_props {scenarios : List Scenario} {st : Subtask}
    (h : st ∈ mkSubtasks scenarios) :
    st.scenarioIdx < scenarios.length ∧
    st.scenarioName = (scenarios.getD st.scenarioIdx default).name ∧
    st.workstream ∈ (scenarios.getD st.scenarioIdx default).required_workstreams ∧
    st.duration = (scenarios.getD st.scenarioIdx default).duration_hours := by
  rcases mem_mkSubtasksAux.mp h with ⟨j, hj, hidx, hname, hws, hdur⟩
  have hj0 : st.scenarioIdx = j := by omega
  rw [hj0]
  exact ⟨hj, hname, hws, hdur⟩

/-- An in-range read of the sub-task list is a member of it. -/
theorem subtaskAt_mem {scenarios : List Scenario} {k : Nat}
    (hk : k < (mkSubtasks scenarios).length) :
    subtaskAt scenarios k ∈ mkSubtasks scenarios := by
  unfold subtaskAt
  rw [List.getD_eq_getElem _ _ hk]
  exact List.getElem_mem hk

/-! ### Claims -/

/-- C3: whenever the personnel list or the scenarios list is empty, the
button handler signals the empty-input error and never reaches the solver
invocation, so no model construction takes place. -/
theorem claim_C3_empty_input_halts_before_model
    (personnel : List Person) (scenarios : List Scenario)
    (h : personnel = [] ∨ scenarios = []) :
    appRun personnel scenarios = AppOutcome.emptyInputError ∧
    ∀ sc pp, appRun personnel scenarios ≠ AppOutcome.invokeSolver sc pp := by
  refine ⟨by rw [appRun, if_pos h], ?_⟩
  intro sc pp
  rw [appRun, if_pos h]
  intro hcon
  cases hcon

/-- Witness for C3 at the concrete empty input. -/
theorem claim_C3_witness :
    appRun [] [⟨"Posting", 3, ["Finance"]⟩] = AppOutcome.emptyInputError :=
  (claim_C3_empty_input_halts_before_model [] [⟨"Posting", 3, ["Finance"]⟩] (Or.inl rfl)).1

/-- C6: in every feasible (hence every returned) assignment, all sub-tasks
of one scenario share the same solved start and the same solved end, and
the interval's length is exactly the scenario's duration in hours. -/
theorem claim_C6_subtasks_share_scenario_interval
    (scenarios : List Scenario) (personnel : List Person) (sol : Solution)
    (_hf : feasible scenarios personnel sol) :
    (∀ k < (mkSubtasks scenarios).length, ∀ l < (mkSubtasks scenarios).length,
      (subtaskAt scenarios k).scenarioIdx = (subtaskAt scenarios l).scenarioIdx →
      startOf sol (subtaskAt scenarios k) = startOf sol (subtaskAt scenarios l) ∧
      endOf sol (subtaskAt scenarios k) = endOf sol (subtaskAt scenarios l)) ∧
    (∀ k < (mkSubtasks scenarios).length,
      endOf sol (subtaskAt scenarios k) - startOf sol (subtaskAt scenarios k) =
        (scenarios.getD (subtaskAt scenarios k).scenarioIdx default).duration_hours) := by
  constructor
  · intro k hk l hl hidx
    have hkm := mem_mkSubtasks_props (subtaskAt_mem hk)
    have hlm := mem_mkSubtasks_props (subtaskAt_mem hl)
    have hst : startOf sol (subtaskAt scenarios k) = startOf sol (subtaskAt scenarios l) := by
      unfold startOf
      rw [hidx]
    refine ⟨hst, ?_⟩
    unfold endOf
    rw [hst, hkm.2.2.2, hlm.2.2.2, hidx]
  · intro k hk
    have hkm := mem_mkSubtasks_props (subtaskAt_mem hk)
    have hdef : endOf sol (subtaskAt scenarios k) =
        startOf sol (subtaskAt scenarios k) + (subtaskAt scenarios k).duration := rfl
    omega

/-- Witness for C6 at the calibration instance: the Finance and IT
sub-tasks of P2P End-to-End share their interval, and the Invoice Posting
sub-task's interval has the scenario's 6-hour length. -/
theorem claim_C6_witness :
    (startOf calSol (subtaskAt calScenarios 0) = startOf calSol (subtaskAt calScenarios 2) ∧
     endOf calSol (subtaskAt calScenarios 0) = endOf calSol (subtaskAt calScenarios 2)) ∧
    endOf calSol (subtaskAt calScenarios 3) - startOf calSol (subtaskAt calScenarios 3) =
      (calScenarios.getD (subtaskAt calScenarios 3).scenarioIdx default).duration_hours :=
  ⟨(claim_C6_subtasks_share_scenario_interval calScenarios calPersonnel calSol
      (by decide)).1 0 (by decide) 2 (by decide) (by decide),
   (claim_C6_subtasks_share_scenario_interval calScenarios calPersonnel calSol
      (by decide)).2 3 (by decide)⟩

/-- C7: in every feasible (hence every returned) assignment, two distinct
sub-tasks whose solved person variables coincide never occupy intervals
that intersect with positive measure. -/
theorem claim_C7_no_double_booking
    (scenarios : List Scenario) (personnel : List Person) (sol : Solution)
    (hf : feasible scenarios personnel sol) :
    ∀ k < (mkSubtasks scenarios).length, ∀ l < (mkSubtasks scenarios).length,
      k ≠ l → sol.persons k = sol.persons l →
      ¬ (max (startOf sol (subtaskAt scenarios k)) (startOf sol (subtaskAt scenarios l)) <
         min (endOf sol (subtaskAt scenarios k)) (endOf sol (subtaskAt scenarios l))) := by
  intro k hk l hl hne hp hcon
  have hek : endOf sol (subtaskAt scenarios k) =
      startOf sol (subtaskAt scenarios k) + (subtaskAt scenarios k).duration := rfl
  have hel : endOf sol (subtaskAt scenarios l) =
      startOf sol (subtaskAt scenarios l) + (subtaskAt scenarios l).duration := rfl
  by_cases hdk : (subtaskAt scenarios k).duration = 0
  · omega
  by_cases hdl : (subtaskAt scenarios l).duration = 0
  · omega
  rcases hf.2.2.2 k hk l hl ⟨hne, hp, hdk, hdl⟩ with h | h <;> omega

/-- Witness for C7 at the calibration instance: the two sub-tasks Alice
performs (positions 0 and 3) do not overlap with positive measure. -/
theorem claim_C7_witness :
    ¬ (max (startOf calSol (subtaskAt calScenarios 0)) (startOf calSol (subtaskAt calScenarios 3)) <
       min (endOf calSol (subtaskAt calScenarios 0)) (endOf calSol (subtaskAt calScenarios 3))) :=
  claim_C7_no_double_booking calScenarios calPersonnel calSol (by decide)
    0 (by decide) 3 (by decide) (by decide) (by decide)

/-- C8: in every feasible (hence every returned) assignment, two distinct
occurrences of the same required workstream inside one scenario of nonzero
duration are staffed by distinct persons. -/
theorem claim_C8_duplicate_workstreams_distinct_persons
    (scenarios : List Scenario) (personnel : List Person) (sol : Solution)
    (hf : feasible scenarios personnel sol) :
    ∀ k < (mkSubtasks scenarios).length, ∀ l < (mkSubtasks scenarios).length,
      k ≠ l →
      (subtaskAt scenarios k).scenarioIdx = (subtaskAt scenarios l).scenarioIdx →
      (subtaskAt scenarios k).workstream = (subtaskAt scenarios l).workstream →
      (subtaskAt scenarios k).duration ≠ 0 →
      sol.persons k ≠ sol.persons l := by
  intro k hk l hl hne hidx hws hdk hpe
  have hkm := mem_mkSubtasks_props (subtaskAt_mem hk)
  have hlm := mem_mkSubtasks_props (subtaskAt_mem hl)
  have hdl : (subtaskAt scenarios l).duration = (subtaskAt scenarios k).duration := by
    rw [hlm.2.2.2, hkm.2.2.2, hidx]
  have hst : startOf sol (subtaskAt scenarios k) = startOf sol (subtaskAt scenarios l) := by
    unfold startOf
    rw [hidx]
  have hek : endOf sol (subtaskAt scenarios k) =
      startOf sol (subtaskAt scenarios k) + (subtaskAt scenarios k).duration := rfl
  have hel : endOf sol (subtaskAt scenarios l) =
      startOf sol (subtaskAt scenarios l) + (subtaskAt scenarios l).duration := rfl
  rcases hf.2.2.2 k hk l hl ⟨hne, hpe, hdk, by omega⟩ with h | h <;> omega

/-- Witness for C8: in the Dual Sign-off instance (Finance listed twice),
the two Finance occurrences get distinct persons. -/
theorem claim_C8_witness :
    solC8.persons 0 ≠ solC8.persons 1 :=
  claim_C8_duplicate_workstreams_distinct_persons scenariosC8 personnelC8 solC8 (by decide)
    0 (by decide) 1 (by decide) (by decide) (by decide) (by decide) (by decide)

/-- If nobody in the list carries the name, the fold returns its
accumulator. -/
theorem peopleMapAux_of_not_mem {nm : String} {l : List Person}
    (h : ∀ p ∈ l, p.name ≠ nm) : ∀ i acc, peopleMapAux nm l i acc = acc := by
  induction l with
  | nil => intro i acc; rfl
  | cons p rest ih =>
    intro i acc
    rw [peopleMapAux, if_neg (h p (List.mem_cons_self p rest)), ih]
    intro q hq
    exact h q (List.mem_cons_of_mem p hq)

/-- With pairwise-distinct names, the dict lookup returns the (unique)
index of the name, shifted by the running offset. -/
theorem peopleMapAux_nodup {l : List Person} (hnd : (l.map Person.name).Nodup)
    {nm : String} {j : Nat} (hj : j < l.length) (hname : (l.getD j default).name = nm) :
    ∀ i acc, peopleMapAux nm l i acc = i + j := by
  induction l generalizing j with
  | nil => simp at hj
  | cons p rest ih =>
    intro i acc
    match j with
    | 0 =>
      simp only [List.getD_cons_zero] at hname
      rw [peopleMapAux, if_pos hname]
      have hnotin : ∀ q ∈ rest, q.name ≠ nm := by
        intro q hq hqname
        have : p.name ∈ rest.map Person.name := by
          rw [hname, ← hqname]
          exact List.mem_map_of_mem Person.name hq
        exact (List.nodup_cons.mp (by simpa using hnd)).1 this
      rw [peopleMapAux_of_not_mem hnotin]
      omega
    | j + 1 =>
      simp only [List.getD_cons_succ] at hname
      have hj' : j < rest.length := by simpa using hj
      have hpname : p.name ≠ nm := by
        intro hcon
        have hmem : rest.getD j default ∈ rest := by
          rw [List.getD_eq_getElem _ _ hj']
          exact List.getElem_mem hj'
        have : p.name ∈ rest.map Person.name := by
          rw [hcon, ← hname]
          exact List.mem_map_of_mem Person.name hmem
        exact (List.nodup_cons.mp (by simpa using hnd)).1 this
      rw [peopleMapAux, if_neg hpname,
        ih (List.nodup_cons.mp (by simpa using hnd)).2 hj' hname]
      omega

/-- With pairwise-distinct names, `people_map[personnel[j].name] = j`. -/
theorem peopleMap_getD {personnel : List Person} (hnd : (personnel.map Person.name).Nodup)
    {j : Nat} (hj : j < personnel.length) :
    peopleMap personnel (personnel.getD j default).name = j := by
  rw [peopleMap]
  simpa using peopleMapAux_nodup hnd hj rfl 0 0

/-- With pairwise-distinct names, every index in `valid_people_indices ws`
really is the index of a person whose workstream is `ws`. -/
theorem mem_validPeopleIndices_ws {personnel : List Person}
    (hnd : (personnel.map Person.name).Nodup) {ws : String} {idx : Nat}
    (h : idx ∈ validPeopleIndices personnel ws) :
    idx < personnel.length ∧ (personnel.getD idx default).workstream = ws := by
  unfold validPeopleIndices at h
  rcases List.mem_map.mp h with ⟨p, hp, hpeq⟩
  rcases List.mem_filter.mp hp with ⟨hpmem, hpws⟩
  rcases List.mem_iff_get.mp hpmem with ⟨⟨j, hj⟩, hpg⟩
  have hgd : personnel.getD j default = p := by
    rw [List.getD_eq_getElem _ _ hj, ← hpg]
    rfl
  have hidx : idx = j := by
    rw [← hpeq, ← hgd, peopleMap_getD hnd hj]
  subst hidx
  exact ⟨hj, by rw [hgd]; simpa using hpws⟩

/-- If some person carries the workstream, `valid_people_indices` is
nonempty (so the domain restriction is posted). -/
theorem validPeopleIndices_ne_nil {personnel : List Person} {ws : String}
    (h : ∃ p ∈ personnel, p.workstream = ws) :
    validPeopleIndices personnel ws ≠ [] := by
  rcases h with ⟨p, hp, hws⟩
  unfold validPeopleIndices
  intro hcon
  rw [List.map_eq_nil_iff] at hcon
  have : p ∈ personnel.filter (fun p => p.workstream = ws) :=
    List.mem_filter.mpr ⟨hp, by simpa using hws⟩
  rw [hcon] at this
  cases this

/-- C1 (code-bug evidence): at an input whose only required workstream (IT)
has zero qualified personnel, the posted model is still feasible — the
source only prints an error instead of constraining the person variable —
and indeed optimal at the exhibited assignment, so the solver reports
OPTIMAL and the extractor returns a nonempty schedule that staffs the IT
sub-task with Alice from Finance and a total of 0.25 days, not the
empty-result signal the spec requires. -/
theorem claim_C1_unstaffable_input_yields_schedule :
    isOptimal scenariosC1 personnelC1 solC1 ∧
    extractSchedule scenariosC1 personnelC1 solC1 =
      [⟨"Security Review", 6, 0, 6, ["Alice"], ["Finance"]⟩] ∧
    totalDays scenariosC1 solC1 = 1 / 4 := by
  refine ⟨⟨by decide, ?_⟩, by decide, ?_⟩
  · intro sol' hf'
    have h6 : objective scenariosC1 solC1 = 6 := by decide
    rw [h6, objective]
    have hm : (mkSubtasks scenariosC1).map (endOf sol') =
        [endOf sol' ⟨0, "Security Review", "IT", 6⟩] := rfl
    rw [hm]
    have he : endOf sol' ⟨0, "Security Review", "IT", 6⟩ =
        sol'.starts 0 + 6 := rfl
    simp only [List.foldr]
    omega
  · have h6 : objective scenariosC1 solC1 = 6 := by decide
    rw [totalDays, h6]
    norm_num

/-- C2 (counterexample): the claim "the assigned person's capability always
equals the sub-task's required workstream" fails at the instance whose only
required workstream (Logistics) has no qualified person: a feasible
assignment staffs it with Dana from Finance. -/
theorem claim_C2_counterexample :
    ¬ (∀ sol : Solution, feasible scenariosC2 personnelC2 sol →
        ∀ k < (mkSubtasks scenariosC2).length,
          personWsAt personnelC2 (sol.persons k) = (subtaskAt scenariosC2 k).workstream) := by
  intro h
  exact absurd (h solC2 (by decide) 0 (by decide)) (by decide)

/-- C2 (amended): in every feasible (hence every returned) assignment, if
personnel names are pairwise distinct and the sub-task's required
workstream has at least one qualified person, then the assigned person's
workstream equals the required one. -/
theorem claim_C2_assigned_capability_matches
    (scenarios : List Scenario) (personnel : List Person) (sol : Solution)
    (hf : feasible scenarios personnel sol)
    (hnd : (personnel.map Person.name).Nodup) :
    ∀ k < (mkSubtasks scenarios).length,
      (∃ p ∈ personnel, p.workstream = (subtaskAt scenarios k).workstream) →
      personWsAt personnel (sol.persons k) = (subtaskAt scenarios k).workstream := by
  intro k hk hex
  exact (mem_validPeopleIndices_ws hnd (hf.2.2.1 k hk (validPeopleIndices_ne_nil hex))).2

/-- Witness for the amended C2 at the calibration instance: the Invoice
Posting sub-task is staffed from the Finance workstream. -/
theorem claim_C2_witness :
    personWsAt calPersonnel (calSol.persons 3) = (subtaskAt calScenarios 3).workstream :=
  claim_C2_assigned_capability_matches calScenarios calPersonnel calSol (by decide) (by decide)
    3 (by decide) ⟨⟨"Alice", "Finance"⟩, by decide, by decide⟩

/-- In every feasible assignment of the calibration instance, both Finance
sub-tasks (positions 0 and 3) are staffed by person 0 (Alice), the only
Finance resource. -/
theorem cal_persons_alice (sol : Solution) (hf : feasible calScenarios calPersonnel sol) :
    sol.persons 0 = 0 ∧ sol.persons 3 = 0 := by
  have h0 := hf.2.2.1 0 (by decide) (by decide)
  have h3 := hf.2.2.1 3 (by decide) (by decide)
  have hv0 : validPeopleIndices calPersonnel (subtaskAt calScenarios 0).workstream = [0] := by
    decide
  have hv3 : validPeopleIndices calPersonnel (subtaskAt calScenarios 3).workstream = [0] := by
    decide
  rw [hv0] at h0
  rw [hv3] at h3
  exact ⟨by simpa using h0, by simpa using h3⟩

/-- Any feasible assignment of the calibration instance has makespan at
least 18: Alice must perform both Finance sub-tasks, whose disjoint
intervals of 12 and 6 hours cannot both finish before hour 18. -/
theorem cal_lower_bound (sol : Solution) (hf : feasible calScenarios calPersonnel sol) :
    18 ≤ objective calScenarios sol := by
  obtain ⟨hp0, hp3⟩ := cal_persons_alice sol hf
  have hno := hf.2.2.2 0 (by decide) 3 (by decide)
    ⟨by decide, by rw [hp0, hp3], by decide, by decide⟩
  have he0 : endOf sol (subtaskAt calScenarios 0) = sol.starts 0 + 12 := rfl
  have he3 : endOf sol (subtaskAt calScenarios 3) = sol.starts 1 + 6 := rfl
  have hs0 : startOf sol (subtaskAt calScenarios 0) = sol.starts 0 := rfl
  have hs3 : startOf sol (subtaskAt calScenarios 3) = sol.starts 1 := rfl
  rw [he0, he3, hs0, hs3] at hno
  have hmap : (mkSubtasks calScenarios).map (endOf sol) =
      [sol.starts 0 + 12, sol.starts 0 + 12, sol.starts 0 + 12, sol.starts 1 + 6] := rfl
  have hm0 : sol.starts 0 + 12 ≤ objective calScenarios sol := by
    rw [objective, hmap]
    simp only [List.foldr]
    omega
  have hm3 : sol.starts 1 + 6 ≤ objective calScenarios sol := by
    rw [objective, hmap]
    simp only [List.foldr]
    omega
  rcases hno with h | h <;> omega

/-- The exhibited back-to-back assignment is optimal for the calibration
instance. -/
theorem calSol_optimal : isOptimal calScenarios calPersonnel calSol := by
  refine ⟨by decide, fun sol' hf' => ?_⟩
  have h18 : objective calScenarios calSol = 18 := by decide
  have := cal_lower_bound sol' hf'
  omega

/-- C4: on the calibration input the solver reaches OPTIMAL, and every
optimal assignment has makespan exactly 18 hours (`total_days = 0.75`),
staffs both Finance sub-tasks with Alice, and sequences the two scenarios
back-to-back (Invoice Posting right after P2P End-to-End or the other way
round). -/
theorem claim_C4_calibration_optimum
    : (∃ sol, isOptimal calScenarios calPersonnel sol) ∧
      ∀ sol, isOptimal calScenarios calPersonnel sol →
        objective calScenarios sol = 18 ∧
        totalDays calScenarios sol = 3 / 4 ∧
        personNameAt calPersonnel (sol.persons 0) = "Alice" ∧
        personNameAt calPersonnel (sol.persons 3) = "Alice" ∧
        (sol.starts 1 = sol.starts 0 + 12 ∨ sol.starts 0 = sol.starts 1 + 6) := by
  refine ⟨⟨calSol, calSol_optimal⟩, ?_⟩
  rintro sol ⟨hfeas, hmin⟩
  have hub : objective calScenarios sol ≤ 18 := by
    have h18 : objective calScenarios calSol = 18 := by decide
    have := hmin calSol (by decide)
    omega
  have hlb := cal_lower_bound sol hfeas
  have hobj : objective calScenarios sol = 18 := by omega
  obtain ⟨hp0, hp3⟩ := cal_persons_alice sol hfeas
  have hno := hfeas.2.2.2 0 (by decide) 3 (by decide)
    ⟨by decide, by rw [hp0, hp3], by decide, by decide⟩
  have he0 : endOf sol (subtaskAt calScenarios 0) = sol.starts 0 + 12 := rfl
  have he3 : endOf sol (subtaskAt calScenarios 3) = sol.starts 1 + 6 := rfl
  have hs0 : startOf sol (subtaskAt calScenarios 0) = sol.starts 0 := rfl
  have hs3 : startOf sol (subtaskAt calScenarios 3) = sol.starts 1 := rfl
  rw [he0, he3, hs0, hs3] at hno
  have hmap : (mkSubtasks calScenarios).map (endOf sol) =
      [sol.starts 0 + 12, sol.starts 0 + 12, sol.starts 0 + 12, sol.starts 1 + 6] := rfl
  have hm0 : sol.starts 0 + 12 ≤ objective calScenarios sol := by
    rw [objective, hmap]
    simp only [List.foldr]
    omega
  have hm3 : sol.starts 1 + 6 ≤ objective calScenarios sol := by
    rw [objective, hmap]
    simp only [List.foldr]
    omega
  refine ⟨hobj, ?_, by rw [hp0]; rfl, by rw [hp3]; rfl, ?_⟩
  · rw [totalDays, hobj]
    norm_num
  · rcases hno with h | h
    · left
      omega
    · right
      omega

/-- Witness for C4: the back-to-back assignment itself satisfies the
optimal-schedule characterization. -/
theorem claim_C4_witness :
    objective calScenarios calSol = 18 ∧
    totalDays calScenarios calSol = 3 / 4 ∧
    personNameAt calPersonnel (calSol.persons 0) = "Alice" ∧
    personNameAt calPersonnel (calSol.persons 3) = "Alice" ∧
    (calSol.starts 1 = calSol.starts 0 + 12 ∨ calSol.starts 0 = calSol.starts 1 + 6) :=
  claim_C4_calibration_optimum.2 calSol calSol_optimal

/-- The objective the code minimizes equals the maximum end over the
scenarios that have at least one required workstream: flattening one
sub-task per occurrence neither adds nor removes end values beyond those
scenarios. -/
theorem objective_eq_maxStaffedScenarioEnd (scenarios : List Scenario) (sol : Solution) :
    objective scenarios sol = maxStaffedScenarioEnd scenarios sol := by
  apply Nat.le_antisymm
  · apply foldr_max_le
    intro x hx
    rcases List.mem_map.mp hx with ⟨st, hst, rfl⟩
    obtain ⟨j, hj, hidx, hname, hws, hdur⟩ := mem_mkSubtasksAux.mp hst
    have hidx0 : st.scenarioIdx = j := by omega
    apply le_foldr_max
    apply List.mem_map.mpr
    refine ⟨j, List.mem_filter.mpr ⟨List.mem_range.mpr hj, ?_⟩, ?_⟩
    · simp only [decide_eq_true_eq]
      intro hcon
      rw [hcon] at hws
      cases hws
    · rw [endOf, startOf, hidx0, hdur]
  · apply foldr_max_le
    intro x hx
    rcases List.mem_map.mp hx with ⟨j, hj, rfl⟩
    rcases List.mem_filter.mp hj with ⟨hjr, hjp⟩
    have hjlen : j < scenarios.length := List.mem_range.mp hjr
    have hne : (scenarios.getD j default).required_workstreams ≠ [] := by simpa using hjp
    obtain ⟨ws, hws⟩ := List.exists_mem_of_ne_nil _ hne
    have hmem : (⟨j, (scenarios.getD j default).name, ws,
        (scenarios.getD j default).duration_hours⟩ : Subtask) ∈ mkSubtasks scenarios :=
      mem_mkSubtasksAux.mpr ⟨j, hjlen, by simp, rfl, hws, rfl⟩
    have hle : sol.starts j + (scenarios.getD j default).duration_hours ≤
        objective scenarios sol := by
      rw [objective]
      exact le_foldr_max (List.mem_map.mpr ⟨_, hmem, rfl⟩)
    exact hle

/-- C5 (counterexample): at the instance with a requirement-free 100-hour
scenario next to a staffed 1-hour one, the exhibited assignment is optimal
(the solver may return it), yet `total_days * 24 = 1` while the maximum
end over all scenarios is 100. -/
theorem claim_C5_counterexample :
    isOptimal scenariosC5 personnelC5 solC5 ∧
    totalDays scenariosC5 solC5 * 24 = 1 ∧
    maxScenarioEnd scenariosC5 solC5 = 100 ∧
    totalDays scenariosC5 solC5 * 24 ≠ (maxScenarioEnd scenariosC5 solC5 : ℚ) := by
  have h1 : objective scenariosC5 solC5 = 1 := by decide
  have ht : totalDays scenariosC5 solC5 * 24 = 1 := by
    rw [totalDays, h1]
    norm_num
  have hmax : maxScenarioEnd scenariosC5 solC5 = 100 := by decide
  refine ⟨⟨by decide, ?_⟩, ht, hmax, ?_⟩
  · intro sol' hf'
    rw [h1, objective]
    have hm : (mkSubtasks scenariosC5).map (endOf sol') = [sol'.starts 0 + 1] := rfl
    rw [hm]
    simp only [List.foldr]
    omega
  · rw [ht, hmax]
    norm_num

/-- C5 (amended): for every feasible (hence every returned) assignment,
`total_days * 24` equals the objective, which is the maximum solved end
over the scenarios with at least one required workstream (exactly those
appearing in the schedule); a requirement-free scenario's end variable is
outside the objective and may exceed it. -/
theorem claim_C5_total_days_is_staffed_makespan
    (scenarios : List Scenario) (personnel : List Person) (sol : Solution)
    (_hf : feasible scenarios personnel sol) :
    totalDays scenarios sol * 24 = (objective scenarios sol : ℚ) ∧
    objective scenarios sol = maxStaffedScenarioEnd scenarios sol := by
  constructor
  · rw [totalDays]
    field_simp
  · exact objective_eq_maxStaffedScenarioEnd scenarios sol

/-- Witness for the amended C5 at the calibration instance. -/
theorem claim_C5_witness :
    totalDays calScenarios calSol * 24 = (objective calScenarios calSol : ℚ) ∧
    objective calScenarios calSol = maxStaffedScenarioEnd calScenarios calSol :=
  claim_C5_total_days_is_staffed_makespan calScenarios calPersonnel calSol (by decide)

/-- A record name produced by the extraction loop is either a name already
in the accumulator or one of the processed sub-tasks' scenario names. -/
theorem mem_scenario_addSubtaskResult {personnel : List Person} {sol : Solution}
    {k : Nat} {st : Subtask} {acc : List ScheduleRecord} {x : String}
    (h : x ∈ (addSubtaskResult personnel sol k st acc).map ScheduleRecord.scenario) :
    x ∈ acc.map ScheduleRecord.scenario ∨ x = st.scenarioName := by
  unfold addSubtaskResult at h
  by_cases hc : acc.any (fun r => r.scenario = st.scenarioName)
  · rw [if_pos hc] at h
    rw [List.map_map] at h
    rcases List.mem_map.mp h with ⟨r0, hr0, hval⟩
    left
    apply List.mem_map.mpr
    refine ⟨r0, hr0, ?_⟩
    rw [← hval]
    by_cases hs : r0.scenario = st.scenarioName <;> simp [hs]
  · rw [if_neg hc, List.map_append] at h
    rcases List.mem_append.mp h with h | h
    · exact Or.inl h
    · exact Or.inr (by simpa using h)

/-- Record names of the extraction are drawn from the accumulator's names
and the sub-task list's scenario names. -/
theorem extractAux_scenario_mem {personnel : List Person} {sol : Solution} :
    ∀ {sts : List (Nat × Subtask)} {acc : List ScheduleRecord} {r : ScheduleRecord},
    r ∈ extractAux personnel sol sts acc →
    r.scenario ∈ acc.map ScheduleRecord.scenario ∨
      r.scenario ∈ sts.map (fun p => p.2.scenarioName) := by
  intro sts
  induction sts with
  | nil =>
    intro acc r hr
    exact Or.inl (List.mem_map_of_mem ScheduleRecord.scenario hr)
  | cons p rest ih =>
    intro acc r hr
    rcases ih hr with h | h
    · rcases mem_scenario_addSubtaskResult h with h' | h'
      · exact Or.inl h'
      · exact Or.inr (by simp [h'])
    · exact Or.inr (List.mem_cons_of_mem _ h)

/-- C9: a scenario whose requirements list is empty contributes no
sub-task, its start value is irrelevant to the objective (its end variable
is not among the maximized ends, so it cannot affect `total_days`), and —
when no other scenario shares its name — no schedule record carries its
name. -/
theorem claim_C9_empty_requirements_scenario_inert
    (scenarios : List Scenario) (personnel : List Person) (i : Nat)
    (_hi : i < scenarios.length)
    (hempty : (scenarios.getD i default).required_workstreams = []) :
    (∀ st ∈ mkSubtasks scenarios, st.scenarioIdx ≠ i) ∧
    (∀ sol v, objective scenarios (updateStart sol i v) = objective scenarios sol) ∧
    ((∀ j < scenarios.length, j ≠ i →
        (scenarios.getD j default).name ≠ (scenarios.getD i default).name) →
      ∀ sol, ∀ r ∈ extractSchedule scenarios personnel sol,
        r.scenario ≠ (scenarios.getD i default).name) := by
  have hnosub : ∀ st ∈ mkSubtasks scenarios, st.scenarioIdx ≠ i := by
    intro st hst hcon
    obtain ⟨j, hj, hidx, hname, hws, hdur⟩ := mem_mkSubtasksAux.mp hst
    have hji : j = i := by omega
    rw [hji, hempty] at hws
    cases hws
  refine ⟨hnosub, ?_, ?_⟩
  · intro sol v
    rw [objective, objective]
    congr 1
    apply List.map_congr_left
    intro st hst
    rw [endOf, endOf, startOf, startOf, updateStart]
    simp only
    rw [if_neg (hnosub st hst)]
  · intro huniq sol r hr
    rcases extractAux_scenario_mem hr with h | h
    · cases h
    · rcases List.mem_map.mp h with ⟨p, hp, heq⟩
      have hst : p.2 ∈ mkSubtasks scenarios := by
        have hsnd := List.mem_map_of_mem Prod.snd hp
        rwa [List.enum_map_snd] at hsnd
      obtain ⟨j, hj, hidx, hname, hws, hdur⟩ := mem_mkSubtasksAux.mp hst
      have hji : j ≠ i := by
        intro hcon
        rw [hcon, hempty] at hws
        cases hws
      intro hcon
      apply huniq j hj hji
      rw [← hname, heq, hcon]

/-- Witness for C9 at the Posting/Placeholder instance: scenario 1 has an
empty requirements list; the lone sub-task is not its, the objective
ignores its start (here moved to hour 77), and no record carries its name. -/
theorem claim_C9_witness :
    (⟨0, "Posting", "Finance", 3⟩ : Subtask).scenarioIdx ≠ 1 ∧
    objective scenariosC9 (updateStart solC9 1 77) = objective scenariosC9 solC9 ∧
    (⟨"Posting", 3, 0, 3, ["Rae"], ["Finance"]⟩ : ScheduleRecord).scenario ≠
      (scenariosC9.getD 1 default).name := by
  have h := claim_C9_empty_requirements_scenario_inert scenariosC9 personnelC9 1
    (by decide) (by decide)
  exact ⟨h.1 ⟨0, "Posting", "Finance", 3⟩ (by decide), h.2.1 solC9 77,
    h.2.2 (by decide) solC9 ⟨"Posting", 3, 0, 3, ["Rae"], ["Finance"]⟩ (by decide)⟩

/-- `firstDedupAux` only inspects the seen list through membership. -/
theorem firstDedupAux_congr (seen seen' : List String)
    (h : ∀ x, x ∈ seen ↔ x ∈ seen') : ∀ l, firstDedupAux seen l = firstDedupAux seen' l := by
  intro l
  induction l generalizing seen seen' with
  | nil => rfl
  | cons n ns ih =>
    by_cases hn : n ∈ seen
    · rw [firstDedupAux, if_pos hn, firstDedupAux, if_pos ((h n).mp hn), ih seen seen' h]
    · rw [firstDedupAux, if_neg hn, firstDedupAux, if_neg (fun hc => hn ((h n).mpr hc))]
      have hcons : ∀ x, x ∈ n :: seen ↔ x ∈ n :: seen' := by
        intro x
        simp [h x]
      rw [ih (n :: seen) (n :: seen') hcons]

/-- `firstDedupAux` produces no duplicates and nothing already seen. -/
theorem firstDedupAux_nodup (l : List String) :
    ∀ seen, (firstDedupAux seen l).Nodup ∧ ∀ x ∈ firstDedupAux seen l, x ∉ seen := by
  induction l with
  | nil => exact fun seen => ⟨List.nodup_nil, by intro x hx; cases hx⟩
  | cons n ns ih =>
    intro seen
    by_cases hn : n ∈ seen
    · rw [firstDedupAux, if_pos hn]
      exact ih seen
    · rw [firstDedupAux, if_neg hn]
      obtain ⟨hnd, hout⟩ := ih (n :: seen)
      refine ⟨List.nodup_cons.mpr ⟨?_, hnd⟩, ?_⟩
      · intro hc
        exact hout n hc (List.mem_cons_self n seen)
      · intro x hx
        rcases List.mem_cons.mp hx with rfl | hx'
        · exact hn
        · intro hc
          exact hout x hx' (List.mem_cons_of_mem n hc)

/-- Membership in `firstDedupAux`: the unseen elements of the list. -/
theorem mem_firstDedupAux {x : String} (l : List String) :
    ∀ seen, x ∈ firstDedupAux seen l ↔ x ∉ seen ∧ x ∈ l := by
  induction l with
  | nil => simp [firstDedupAux]
  | cons n ns ih =>
    intro seen
    by_cases hn : n ∈ seen
    · rw [firstDedupAux, if_pos hn, ih seen]
      constructor
      · rintro ⟨hxs, hxl⟩
        exact ⟨hxs, List.mem_cons_of_mem n hxl⟩
      · rintro ⟨hxs, hxl⟩
        rcases List.mem_cons.mp hxl with rfl | hxl'
        · exact absurd hn hxs
        · exact ⟨hxs, hxl'⟩
    · rw [firstDedupAux, if_neg hn]
      constructor
      · intro hx
        rcases List.mem_cons.mp hx with rfl | hx'
        · exact ⟨hn, List.mem_cons_self x ns⟩
        · obtain ⟨hxs, hxl⟩ := (ih (n :: seen)).mp hx'
          exact ⟨fun hc => hxs (List.mem_cons_of_mem n hc), List.mem_cons_of_mem n hxl⟩
      · rintro ⟨hxs, hxl⟩
        rcases List.mem_cons.mp hxl with rfl | hxl'
        · exact List.mem_cons_self x _
        · by_cases hxn : x = n
          · exact hxn ▸ List.mem_cons_self x _
          · exact List.mem_cons_of_mem n ((ih (n :: seen)).mpr
              ⟨by simp [hxn, hxs], hxl'⟩)

/-- `find?` over an append whose first part has no match. -/
theorem find?_append_of_none {α : Type u_1} {p : α → Bool} {l₁ l₂ : List α}
    (h : l₁.find? p = none) : (l₁ ++ l₂).find? p = l₂.find? p := by
  induction l₁ with
  | nil => rfl
  | cons a t ih =>
    rw [List.find?_cons] at h
    rcases hpa : p a with _ | _
    · rw [List.cons_append, List.find?_cons, hpa]
      rw [hpa] at h
      exact ih h
    · rw [hpa] at h
      cases h

/-- `find?` over an append whose first part already matches. -/
theorem find?_append_of_some {α : Type u_1} {p : α → Bool} {l₁ l₂ : List α} {a : α}
    (h : l₁.find? p = some a) : (l₁ ++ l₂).find? p = some a := by
  induction l₁ with
  | nil => cases h
  | cons b t ih =>
    rw [List.find?_cons] at h
    rcases hpb : p b with _ | _
    · rw [hpb] at h
      rw [List.cons_append, List.find?_cons, hpb]
      exact ih h
    · rw [hpb] at h
      rw [List.cons_append, List.find?_cons, hpb]
      exact h

/-- A map that preserves the scenario name commutes with looking a name
up. -/
theorem find?_map_of_scenario_preserving {upd : ScheduleRecord → ScheduleRecord}
    (hpres : ∀ r, (upd r).scenario = r.scenario) {nm : String} (acc : List ScheduleRecord) :
    (acc.map upd).find? (fun r => r.scenario = nm) =
      (acc.find? (fun r => r.scenario = nm)).map upd := by
  induction acc with
  | nil => rfl
  | cons r t ih =>
    rw [List.map_cons, List.find?_cons, List.find?_cons]
    rcases hp : (decide (r.scenario = nm)) with _ | _
    · have hp' : (decide ((upd r).scenario = nm)) = false := by rw [hpres r]; exact hp
      rw [hp', ih]
    · have hp' : (decide ((upd r).scenario = nm)) = true := by rw [hpres r]; exact hp
      rw [hp']
      rfl

/-- A map that preserves the scenario name leaves the name list unchanged. -/
theorem map_scenario_of_preserving {upd : ScheduleRecord → ScheduleRecord}
    (hpres : ∀ r, (upd r).scenario = r.scenario) (acc : List ScheduleRecord) :
    (acc.map upd).map ScheduleRecord.scenario = acc.map ScheduleRecord.scenario := by
  rw [List.map_map]
  exact List.map_congr_left fun r _ => hpres r

/-- The per-record update of the extraction step never touches the
scenario field. -/
theorem upd_scenario_preserving (personnel : List Person) (sol : Solution) (k : Nat)
    (st : Subtask) :
    ∀ r : ScheduleRecord,
      ((fun r : ScheduleRecord =>
        if r.scenario = st.scenarioName then
          { r with
            assignedPersons := r.assignedPersons ++ [personNameAt personnel (sol.persons k)],
            workstreams := r.workstreams ++ [personWsAt personnel (sol.persons k)] }
        else r) r).scenario = r.scenario := by
  intro r
  by_cases hs : r.scenario = st.scenarioName <;> simp [hs]

/-- The dict's membership test agrees with the record-name list. -/
theorem any_scenario_iff {acc : List ScheduleRecord} {nm : String} :
    acc.any (fun r => r.scenario = nm) = true ↔ nm ∈ acc.map ScheduleRecord.scenario := by
  rw [List.any_eq_true]
  constructor
  · rintro ⟨r, hr, hp⟩
    exact List.mem_map.mpr ⟨r, hr, by simpa using hp⟩
  · intro h
    rcases List.mem_map.mp h with ⟨r, hr, hval⟩
    exact ⟨r, hr, by simpa using hval⟩

/-- The record names produced by the extraction loop: the accumulator's
names followed by the first-occurrence dedup of the remaining sub-tasks'
scenario names. -/
theorem extractAux_map_scenario (personnel : List Person) (sol : Solution) :
    ∀ (sts : List (Nat × Subtask)) (acc : List ScheduleRecord),
    (extractAux personnel sol sts acc).map ScheduleRecord.scenario =
      acc.map ScheduleRecord.scenario ++
        firstDedupAux (acc.map ScheduleRecord.scenario)
          (sts.map (fun p => p.2.scenarioName)) := by
  intro sts
  induction sts with
  | nil =>
    intro acc
    rw [extractAux, List.map_nil, firstDedupAux, List.append_nil]
  | cons p rest ih =>
    intro acc
    rw [extractAux, ih, List.map_cons]
    by_cases hc : p.2.scenarioName ∈ acc.map ScheduleRecord.scenario
    · have hany : acc.any (fun r => r.scenario = p.2.scenarioName) = true :=
        any_scenario_iff.mpr hc
      have hmap : (addSubtaskResult personnel sol p.1 p.2 acc).map ScheduleRecord.scenario =
          acc.map ScheduleRecord.scenario := by
        rw [addSubtaskResult, if_pos hany]
        exact map_scenario_of_preserving (upd_scenario_preserving personnel sol p.1 p.2) acc
      rw [hmap, firstDedupAux, if_pos hc]
    · have hany : acc.any (fun r => r.scenario = p.2.scenarioName) = false := by
        rcases h : acc.any (fun r => r.scenario = p.2.scenarioName) with _ | _
        · rfl
        · exact absurd (any_scenario_iff.mp h) hc
      have hmap : (addSubtaskResult personnel sol p.1 p.2 acc).map ScheduleRecord.scenario =
          acc.map ScheduleRecord.scenario ++ [p.2.scenarioName] := by
        rw [addSubtaskResult, if_neg (by simp [hany]), List.map_append]
        rfl
      rw [hmap, firstDedupAux, if_neg hc,
        firstDedupAux_congr (acc.map ScheduleRecord.scenario ++ [p.2.scenarioName])
          (p.2.scenarioName :: acc.map ScheduleRecord.scenario)
          (by
            intro x
            constructor
            · intro hx
              rcases List.mem_append.mp hx with h | h
              · exact List.mem_cons_of_mem _ h
              · exact (List.mem_singleton.mp h) ▸ List.mem_cons_self _ _
            · intro hx
              rcases List.mem_cons.mp hx with rfl | h
              · exact List.mem_append.mpr (Or.inr (List.mem_singleton.mpr rfl))
              · exact List.mem_append.mpr (Or.inl h))
          (rest.map (fun p => p.2.scenarioName)),
        List.append_assoc, List.singleton_append]

/-- Once a record for `nm` exists, the rest of the extraction loop only
appends to its two lists: one person/workstream entry per further sub-task
named `nm`, in processing order. -/
theorem find?_extractAux_of_found (personnel : List Person) (sol : Solution) (nm : String) :
    ∀ (sts : List (Nat × Subtask)) (acc : List ScheduleRecord) (r : ScheduleRecord),
    acc.find? (fun x => x.scenario = nm) = some r →
    (extractAux personnel sol sts acc).find? (fun x => x.scenario = nm) =
      some { r with
        assignedPersons := r.assignedPersons ++
          ((sts.filter (fun p => p.2.scenarioName = nm)).map
            (fun p => personNameAt personnel (sol.persons p.1))),
        workstreams := r.workstreams ++
          ((sts.filter (fun p => p.2.scenarioName = nm)).map
            (fun p => personWsAt personnel (sol.persons p.1))) } := by
  intro sts
  induction sts with
  | nil =>
    intro acc r h
    rw [extractAux, List.filter_nil, List.map_nil, List.append_nil, List.map_nil,
      List.append_nil]
    exact h
  | cons p rest ih =>
    intro acc r h
    have hr_pred : r.scenario = nm := by simpa using List.find?_some h
    rw [extractAux]
    by_cases hs : p.2.scenarioName = nm
    · have hany : acc.any (fun x => x.scenario = p.2.scenarioName) = true := by
        rw [hs]
        exact any_scenario_iff.mpr (List.mem_map.mpr ⟨r, List.mem_of_find?_eq_some h, hr_pred⟩)
      have hfind : (addSubtaskResult personnel sol p.1 p.2 acc).find?
          (fun x => x.scenario = nm) =
          some { r with
            assignedPersons := r.assignedPersons ++ [personNameAt personnel (sol.persons p.1)],
            workstreams := r.workstreams ++ [personWsAt personnel (sol.persons p.1)] } := by
        rw [addSubtaskResult, if_pos hany,
          find?_map_of_scenario_preserving (upd_scenario_preserving personnel sol p.1 p.2), h,
          Option.map_some']
        have hcond : r.scenario = p.2.scenarioName := by rw [hr_pred, hs]
        rw [if_pos hcond]
      rw [ih _ _ hfind, List.filter_cons_of_pos (by simpa using hs), List.map_cons,
        List.map_cons]
      simp [List.append_assoc]
    · have hfind : (addSubtaskResult personnel sol p.1 p.2 acc).find?
          (fun x => x.scenario = nm) = some r := by
        rw [addSubtaskResult]
        by_cases hany : acc.any (fun x => x.scenario = p.2.scenarioName) = true
        · rw [if_pos hany,
            find?_map_of_scenario_preserving (upd_scenario_preserving personnel sol p.1 p.2), h,
            Option.map_some']
          have hcond : ¬ (r.scenario = p.2.scenarioName) := by
            rw [hr_pred]
            exact fun hc => hs hc.symm
          rw [if_neg hcond]
        · rw [if_neg hany]
          exact find?_append_of_some h
      rw [ih _ _ hfind, List.filter_cons_of_neg (by simpa using hs)]

/-- Before any record for `nm` exists, the first sub-task named `nm` creates
the record, fixing its duration and interval; all sub-tasks named `nm`
contribute the person/workstream entries in order. -/
theorem find?_extractAux_of_new (personnel : List Person) (sol : Solution) (nm : String) :
    ∀ (sts : List (Nat × Subtask)) (acc : List ScheduleRecord) (q : Nat × Subtask),
    acc.find? (fun x => x.scenario = nm) = none →
    sts.find? (fun p => p.2.scenarioName = nm) = some q →
    (extractAux personnel sol sts acc).find? (fun x => x.scenario = nm) =
      some { scenario := q.2.scenarioName
             durationHours := q.2.duration
             startHour := startOf sol q.2
             endHour := endOf sol q.2
             assignedPersons := ((sts.filter (fun p => p.2.scenarioName = nm)).map
               (fun p => personNameAt personnel (sol.persons p.1)))
             workstreams := ((sts.filter (fun p => p.2.scenarioName = nm)).map
               (fun p => personWsAt personnel (sol.persons p.1))) } := by
  intro sts
  induction sts with
  | nil =>
    intro acc q hacc hf
    cases hf
  | cons p rest ih =>
    intro acc q hacc hf
    rw [extractAux]
    by_cases hs : p.2.scenarioName = nm
    · have hq : p = q := by
        have hfc : (p :: rest).find? (fun x => x.2.scenarioName = nm) = some p :=
          List.find?_cons_of_pos rest (by simpa using hs)
        rw [hfc] at hf
        exact Option.some_injective _ hf
      have hnotmem : ∀ x ∈ acc, ¬ (x.scenario = nm) := by
        intro x hx hcx
        have := List.find?_eq_none.mp hacc x hx
        simp [hcx] at this
      have hany : acc.any (fun x => x.scenario = p.2.scenarioName) = false := by
        rcases hh : acc.any (fun x => x.scenario = p.2.scenarioName) with _ | _
        · rfl
        · rcases List.any_eq_true.mp hh with ⟨x, hx, hpx⟩
          exact absurd (by rw [← hs]; simpa using hpx) (hnotmem x hx)
      have hadd : addSubtaskResult personnel sol p.1 p.2 acc =
          acc ++ [{ scenario := p.2.scenarioName
                    durationHours := p.2.duration
                    startHour := startOf sol p.2
                    endHour := endOf sol p.2
                    assignedPersons := [personNameAt personnel (sol.persons p.1)]
                    workstreams := [personWsAt personnel (sol.persons p.1)] }] := by
        rw [addSubtaskResult, if_neg (by simp [hany])]
      have hnewfind : (addSubtaskResult personnel sol p.1 p.2 acc).find?
          (fun x => x.scenario = nm) =
          some { scenario := p.2.scenarioName
                 durationHours := p.2.duration
                 startHour := startOf sol p.2
                 endHour := endOf sol p.2
                 assignedPersons := [personNameAt personnel (sol.persons p.1)]
                 workstreams := [personWsAt personnel (sol.persons p.1)] } := by
        rw [hadd, find?_append_of_none hacc]
        exact List.find?_cons_of_pos [] (by simpa using hs)
      rw [find?_extractAux_of_found personnel sol nm rest _ _ hnewfind,
        List.filter_cons_of_pos (by simpa using hs), List.map_cons, List.map_cons]
      rw [← hq]
      simp
    · have hp : rest.find? (fun p => p.2.scenarioName = nm) = some q := by
        have hfc : (p :: rest).find? (fun x => x.2.scenarioName = nm) =
            rest.find? (fun x => x.2.scenarioName = nm) :=
          List.find?_cons_of_neg rest (by simpa using hs)
        rwa [hfc] at hf
      have haccadd : (addSubtaskResult personnel sol p.1 p.2 acc).find?
          (fun x => x.scenario = nm) = none := by
        rw [addSubtaskResult]
        by_cases hany : acc.any (fun x => x.scenario = p.2.scenarioName) = true
        · rw [if_pos hany,
            find?_map_of_scenario_preserving (upd_scenario_preserving personnel sol p.1 p.2),
            hacc, Option.map_none']
        · rw [if_neg hany, find?_append_of_none hacc]
          rw [List.find?_cons_of_neg [] (by simpa using hs)]
          rfl
      rw [ih _ _ haccadd hp, List.filter_cons_of_neg (by simpa using hs)]

/-- C10: the extractor keys records by scenario name: for every name
occurring among the sub-tasks there is exactly one output record; its
duration and interval come from the first sub-task carrying the name
(hence, with duplicated scenario names, the first such scenario), and its
person/workstream lists concatenate the assignments of every sub-task
carrying the name, across all scenarios that share it. -/
theorem claim_C10_output_merged_by_scenario_name
    (scenarios : List Scenario) (personnel : List Person) (sol : Solution) (nm : String)
    (hmem : nm ∈ (mkSubtasks scenarios).map Subtask.scenarioName) :
    ((extractSchedule scenarios personnel sol).map ScheduleRecord.scenario).count nm = 1 ∧
    ∀ q : Nat × Subtask,
      (mkSubtasks scenarios).enum.find? (fun p => p.2.scenarioName = nm) = some q →
      (extractSchedule scenarios personnel sol).find? (fun r => r.scenario = nm) =
        some { scenario := q.2.scenarioName
               durationHours := q.2.duration
               startHour := startOf sol q.2
               endHour := endOf sol q.2
               assignedPersons := (((mkSubtasks scenarios).enum.filter
                   (fun p => p.2.scenarioName = nm)).map
                 (fun p => personNameAt personnel (sol.persons p.1)))
               workstreams := (((mkSubtasks scenarios).enum.filter
                   (fun p => p.2.scenarioName = nm)).map
                 (fun p => personWsAt personnel (sol.persons p.1))) } := by
  constructor
  · have hmap := extractAux_map_scenario personnel sol (mkSubtasks scenarios).enum []
    rw [extractSchedule, hmap]
    simp only [List.map_nil, List.nil_append]
    have henum : (mkSubtasks scenarios).enum.map (fun p => p.2.scenarioName) =
        (mkSubtasks scenarios).map Subtask.scenarioName := by
      rw [show (fun p : Nat × Subtask => p.2.scenarioName) =
          (Subtask.scenarioName ∘ Prod.snd) from rfl, ← List.map_map, List.enum_map_snd]
    rw [henum]
    apply List.count_eq_one_of_mem
    · exact (firstDedupAux_nodup _ []).1
    · exact (mem_firstDedupAux _ []).mpr ⟨List.not_mem_nil nm, hmem⟩
  · intro q hq
    rw [extractSchedule]
    exact find?_extractAux_of_new personnel sol nm _ [] q rfl hq

/-- Witness for C10 at the duplicate-name instance: the two "Regression"
scenarios merge into one record carrying the first one's 2-hour interval
and both assignments. -/
theorem claim_C10_witness :
    ((extractSchedule scenariosC10 personnelC10 solC10).map ScheduleRecord.scenario).count
        "Regression" = 1 ∧
    (extractSchedule scenariosC10 personnelC10 solC10).find?
        (fun r => r.scenario = "Regression") =
      some ⟨"Regression", 2, 0, 2, ["Sam", "Tia"], ["Finance", "IT"]⟩ := by
  have h := claim_C10_output_merged_by_scenario_name scenariosC10 personnelC10 solC10
    "Regression" (by decide)
  refine ⟨h.1, ?_⟩
  rw [h.2 (0, ⟨0, "Regression", "Finance", 2⟩) (by decide)]
  decide
